import Mathlib

/-!
Verification of the GamingVision training-tool core: a shallow embedding of
the dataset-split, pipeline-orchestration, export and downstream-config-merge
logic of `scripts/split_dataset.py`, `scripts/01_train_pipeline.py`,
`scripts/export_model.py` and `scripts/config.py`, together with theorems
settling the behavioural claims about those scripts.
-/

namespace GamingVision

/-! ## String helpers -/

/-- Naive substring search on character lists: does `pat` occur contiguously in the list? -/
def containsSub (pat : List Char) : List Char → Bool
  | [] => pat.isEmpty
  | c :: cs => pat.isPrefixOf (c :: cs) || containsSub pat cs

/-- Whether the string `s` mentions `sub` as a contiguous substring. -/
def mentionsStr (s sub : String) : Bool := containsSub sub.toList s.toList

/-- ASCII lower-casing, modelling `suffix.lower()` of the source (the accepted
extensions are ASCII). -/
def lowerStr (s : String) : String := String.mk (s.toList.map Char.toLower)

/-- Python `str.strip()`: leading and trailing whitespace removed. -/
def trimStr (s : String) : String :=
  String.mk (((s.toList.dropWhile Char.isWhitespace).reverse.dropWhile
    Char.isWhitespace).reverse)

/-- Model of Python `pathlib.Path(name).stem`: the name with its final suffix removed,
where the suffix starts at the last dot, provided that dot is neither the first nor the
last character of the name (this is exactly pathlib's `rfind`-based rule). -/
def stemOf (s : String) : String :=
  let cs := s.toList
  let n := cs.length
  if '.' ∈ cs then
    let i := n - 1 - cs.reverse.indexOf '.'
    if 0 < i ∧ i < n - 1 then String.mk (cs.take i) else s
  else s

/-! ## Dataset filtering (`split_dataset.get_labeled_images`)

The raw images folder is modelled as a list of directory entries, each a stem
plus extension; a directory never holds two entries with the same full name,
which theorems take as a `Nodup` hypothesis on the names.  The labels folder
is modelled as a partial map from a stem to the text content of
`<stem>.txt`, `none` when no such label file exists. -/

/-- A file in the raw images folder: `stem` and `ext` are `img_path.stem` and
`img_path.suffix` of the source. -/
structure ImageFile where
  stem : String
  ext : String
deriving DecidableEq, Repr

/-- The full filename, `img_path.name` in the source. -/
def ImageFile.name (f : ImageFile) : String := f.stem ++ f.ext

/-- The extension filter of `get_labeled_images`:
`img_path.suffix.lower() in ['.jpg', '.jpeg', '.png']`. -/
def isImageExt (ext : String) : Bool :=
  lowerStr ext == ".jpg" || lowerStr ext == ".jpeg" || lowerStr ext == ".png"

/-- The label check of `get_labeled_images`: the same-stem label file exists and
`label_path.read_text().strip()` is non-empty. -/
def hasNonemptyLabel (labelOf : String → Option String) (stem : String) : Bool :=
  match labelOf stem with
  | some content => !(trimStr content == "")
  | none => false

/-- The complete per-image filter of `get_labeled_images`. -/
def isLabeled (labelOf : String → Option String) (f : ImageFile) : Bool :=
  isImageExt f.ext && hasNonemptyLabel labelOf f.stem

/-- `get_labeled_images`: the names of the images that pass the extension filter and
have a non-empty same-stem label file, in directory order. -/
def getLabeledImages (imgs : List ImageFile) (labelOf : String → Option String) : List String :=
  (imgs.filter (isLabeled labelOf)).map ImageFile.name

/-! ## The seeded shuffle and the split (`split_dataset.main`)

`random.seed(seed)` resets the process-global generator state to a function of
the seed alone, and `random.shuffle` then applies a pseudo-random permutation
driven by that state.  The generator is modelled by a `Nat` state with a
linear-congruential step standing in for the Mersenne twister; everything the
claims use about it is exactly what the source guarantees: the shuffle is a
permutation of its input and a deterministic function of (seed, input). -/

/-- One step of the pseudo-random generator state. -/
def lcgNext (s : Nat) : Nat := (s * 1103515245 + 12345) % 2147483648

/-- `pick x xs i` is the element at position `i` of `x :: xs` together with the
remaining elements (in order); out-of-range indices pick the head. -/
def pick {α : Type} : α → List α → Nat → α × List α
  | x, xs, 0 => (x, xs)
  | x, [], _ + 1 => (x, [])
  | x, y :: ys, i + 1 =>
    let p := pick y ys i
    (p.1, x :: p.2)

/-- Fisher–Yates-style selection shuffle driven by the generator state `g`;
`fuel` is the length of the list. -/
def shuffleGo {α : Type} (g : Nat) : Nat → List α → List α
  | _, [] => []
  | 0, _ :: _ => []
  | fuel + 1, x :: xs =>
    let p := pick x xs (g % (xs.length + 1))
    p.1 :: shuffleGo (lcgNext g) fuel p.2

/-- `random.seed(seed); random.shuffle(xs)`: the deterministic pseudo-random
permutation of `xs` selected by `seed`. -/
def seededShuffle {α : Type} (seed : Nat) (xs : List α) : List α :=
  shuffleGo seed xs.length xs

/-- `TRAIN_RATIO = 0.8` of the source, as an exact rational.  (`int(n * 0.8)` on
Python doubles equals the exact `⌊n * 4/5⌋` for every dataset size: the double
nearest to 0.8 exceeds 4/5 by under `2⁻⁵³·0.8`, so the rounded product never
crosses the next integer before truncation.) -/
def trainFrac : ℚ := 4 / 5

/-- `split_idx = int(len(labeled_images) * TRAIN_RATIO)`. -/
def splitIdx (n : Nat) : Nat := (⌊(n : ℚ) * trainFrac⌋).toNat

/-- `RANDOM_SEED = 42` of the source (`none` would mean "random each time"). -/
def RANDOM_SEED : Option Nat := some 42

/-- The split of `split_dataset.main` lines 134–140 for a given seed:
shuffle, then `train = labeled[:split_idx]`, `val = labeled[split_idx:]`. -/
def partition (seed : Nat) (labeled : List String) : List String × List String :=
  let shuffled := seededShuffle seed labeled
  (shuffled.take (splitIdx labeled.length), shuffled.drop (splitIdx labeled.length))

/-- The same split with the process-global generator state `g` made explicit:
`if RANDOM_SEED is not None: random.seed(RANDOM_SEED)` replaces the prior
global state by the seed, otherwise the prior state is used. -/
def partitionFrom (g : Nat) (seedOpt : Option Nat) (labeled : List String) :
    List String × List String :=
  let st := seedOpt.getD g
  let shuffled := shuffleGo st labeled.length labeled
  (shuffled.take (splitIdx labeled.length), shuffled.drop (splitIdx labeled.length))

/-! ## Materializing a split (`clear_split_folders`, `copy_files`)

For the content-level claims the four destination leaf folders are modelled by
their filename lists.  `shutil.copy2` overwrites an existing destination file,
so the set of names present is unchanged when the name already exists. -/

/-- The four destination leaf folders, each as the list of filenames present. -/
structure SplitDirs where
  trainImages : List String
  trainLabels : List String
  valImages : List String
  valLabels : List String
deriving DecidableEq, Repr

/-- Placing (copying) a file into a folder: `shutil.copy2` overwrites, so the
name list gains `name` only when it is not already present. -/
def putFile (dir : List String) (name : String) : List String :=
  if name ∈ dir then dir else dir ++ [name]

/-- `clear_split_folders`: `shutil.rmtree` then `mkdir` leaves every destination
folder empty, whatever it held before. -/
def clearSplitFolders (_prior : SplitDirs) : SplitDirs := ⟨[], [], [], []⟩

/-- `copy_files(image_names, dest_images, dest_labels)`: copy each image into the
image folder and, when the same-stem label file exists, the label into the label
folder. -/
def copyFiles (labelOf : String → Option String) :
    List String → List String × List String → List String × List String
  | [], dest => dest
  | n :: ns, dest =>
    let di := putFile dest.1 n
    let dl := if (labelOf (stemOf n)).isSome
              then putFile dest.2 (stemOf n ++ ".txt")
              else dest.2
    copyFiles labelOf ns (di, dl)

/-- The label filenames that `copy_files` produces for a list of image names. -/
def labelTargets (labelOf : String → Option String) (ns : List String) : List String :=
  (ns.filter (fun n => (labelOf (stemOf n)).isSome)).map (fun n => stemOf n ++ ".txt")

/-- Materializing a manifest: `clear_split_folders()` followed by the two
`copy_files` calls of `split_dataset.main`. -/
def materialize (labelOf : String → Option String) (train val : List String)
    (prior : SplitDirs) : SplitDirs :=
  let c := clearSplitFolders prior
  let t := copyFiles labelOf train (c.trainImages, c.trainLabels)
  let v := copyFiles labelOf val (c.valImages, c.valLabels)
  ⟨t.1, t.2, v.1, v.2⟩

/-! ## Path-level filesystem model (frame claims about Clean and Split)

A filesystem is a map from paths (segment lists) to file contents; directories
are implicit.  `shutil.rmtree` removes every file whose path extends the given
root. -/

/-- A filesystem path, as its list of segments. -/
abbrev FPath := List String

/-- A filesystem: file contents at each path, `none` where no file exists. -/
abbrev FS := FPath → Option String

/-- Writing a file at a path. -/
def writeFile (p : FPath) (c : String) (fs : FS) : FS :=
  fun q => if q = p then some c else fs q

/-- `shutil.copy2(src, dst)`: write the content of `src` at `dst`. -/
def copyFile (src dst : FPath) (fs : FS) : FS :=
  match fs src with
  | some c => writeFile dst c fs
  | none => fs

/-- `shutil.rmtree(root)`: remove every file at or below `root`. -/
def rmtree (root : FPath) (fs : FS) : FS :=
  fun q => if root.isPrefixOf q then none else fs q

/-- `IMAGES_DIR = TRAINING_DATA_DIR / "images"` (config.py). -/
def imagesDir (root : FPath) : FPath := root ++ ["images"]

/-- `LABELS_DIR = TRAINING_DATA_DIR / "labels"` (config.py). -/
def labelsDir (root : FPath) : FPath := root ++ ["labels"]

/-- `TRAINING_DATA_DIR / "train"` (removed whole by `step_clean`). -/
def trainDir (root : FPath) : FPath := root ++ ["train"]

/-- `TRAINING_DATA_DIR / "val"` (removed whole by `step_clean`). -/
def valDir (root : FPath) : FPath := root ++ ["val"]

/-- `TRAIN_IMAGES_DIR` (config.py). -/
def trainImagesDir (root : FPath) : FPath := trainDir root ++ ["images"]

/-- `TRAIN_LABELS_DIR` (config.py). -/
def trainLabelsDir (root : FPath) : FPath := trainDir root ++ ["labels"]

/-- `VAL_IMAGES_DIR` (config.py). -/
def valImagesDir (root : FPath) : FPath := valDir root ++ ["images"]

/-- `VAL_LABELS_DIR` (config.py). -/
def valLabelsDir (root : FPath) : FPath := valDir root ++ ["labels"]

/-- `DATASET_YAML = TRAINING_DATA_DIR / "dataset.yaml"` (config.py). -/
def datasetYamlPath (root : FPath) : FPath := root ++ ["dataset.yaml"]

/-- `step_clean` on the filesystem: when the gate and the file count lead to
cleaning (`doClean`), remove the `train` and `val` subtrees; in every other
branch (nothing to clean, or the confirmation declined) the filesystem is
untouched. -/
def stepCleanFS (doClean : Bool) (root : FPath) (fs : FS) : FS :=
  if doClean then rmtree (valDir root) (rmtree (trainDir root) fs) else fs

/-- `clear_split_folders` on the filesystem: remove the four destination leaf
folders (`mkdir` recreates them empty; directories are implicit here). -/
def clearSplitFoldersFS (root : FPath) (fs : FS) : FS :=
  rmtree (valLabelsDir root) (rmtree (valImagesDir root)
    (rmtree (trainLabelsDir root) (rmtree (trainImagesDir root) fs)))

/-- `copy_files` on the filesystem: copy each listed image from the source
images folder into `dI`, and its label from the source labels folder into `dL`
when the label file exists. -/
def copyFilesFS (root : FPath) (dI dL : FPath) : List String → FS → FS
  | [], fs => fs
  | n :: ns, fs =>
    let fs1 := copyFile (imagesDir root ++ [n]) (dI ++ [n]) fs
    let lbl := stemOf n ++ ".txt"
    let fs2 := if (fs1 (labelsDir root ++ [lbl])).isSome
               then copyFile (labelsDir root ++ [lbl]) (dL ++ [lbl]) fs1
               else fs1
    copyFilesFS root dI dL ns fs2

/-- The Split step on the filesystem: clear the four leaf folders, copy the
train and val file lists, then write the dataset description document
(`create_dataset_yaml`). -/
def stepSplitFS (root : FPath) (trainNames valNames : List String) (yaml : String)
    (fs : FS) : FS :=
  let fs1 := clearSplitFoldersFS root fs
  let fs2 := copyFilesFS root (trainImagesDir root) (trainLabelsDir root) trainNames fs1
  let fs3 := copyFilesFS root (valImagesDir root) (valLabelsDir root) valNames fs2
  writeFile (datasetYamlPath root) yaml fs3

/-! ## Pipeline orchestrator (`01_train_pipeline.main` and its four steps)

Each step prints and returns a boolean; the orchestrator runs steps whose
number is at least `skip-to` in order and calls `sys.exit(1)` at the first
`False`.  The environment record collects everything the step bodies consult:
file counts and existence checks, confirmation-gate answers (with `--auto-yes`
every gate answers its default, `True`), and the outcomes of the external
engine and of the I/O the steps perform. -/

/-- Default-configuration rendering of `DATASET_YAML` (config.py), used in the
Train step's error message. -/
def datasetYamlStr : String := "training_data/arc_raiders/dataset.yaml"

/-- Default-configuration rendering of `CLASSES_FILE` (config.py). -/
def classesFileStr : String := "training_data/arc_raiders/labels/classes.txt"

/-- Default-configuration rendering of the weights folder
`RUNS_DIR / f"{GAME_ID}_model" / "weights"`. -/
def weightsDirStr : String := "runs/detect/arc_raiders_model/weights"

/-- `_DEFAULT_BASE_MODEL` (config.py). -/
def BASE_MODEL : String := "yolo11n.pt"

/-- `_DEFAULT_MODEL_NAME` (config.py). -/
def MODEL_NAME : String := "ArcRaidersModel"

/-- The path of the best-epoch weights file checked by the export step. -/
def bestPtPath : String := weightsDirStr ++ "/best.pt"

/-- The path of the last-epoch weights file checked by the export step. -/
def lastPtPath : String := weightsDirStr ++ "/last.pt"

/-- Outcome of one pipeline step: the source returns `True` both for a step
that ran (`ok`) and for one suppressed at its confirmation gate (`skipped`),
and `False` with a printed error for a failure. -/
inductive StepResult where
  | ok : StepResult
  | skipped : StepResult
  | failed : String → StepResult
deriving DecidableEq, Repr

/-- The boolean the source step functions return. -/
def StepResult.success : StepResult → Bool
  | .failed _ => false
  | _ => true

/-- Everything the four step bodies read from the world. -/
structure PipelineEnv where
  /-- total files counted in the four train/val leaf folders (step 1) -/
  trainValFileCount : Nat
  /-- answer of the "Clean train/val folders?" gate -/
  cleanConfirm : Bool
  /-- the two `rmtree` calls of step 1 raise no exception -/
  cleanOk : Bool
  /-- images counted in `IMAGES_DIR` (step 2) -/
  srcImageCount : Nat
  /-- labels counted in `LABELS_DIR` (step 2) -/
  srcLabelCount : Nat
  /-- `CLASSES_FILE.exists()` -/
  classesFileExists : Bool
  /-- answer of the "Proceed with split?" gate -/
  splitConfirm : Bool
  /-- number of labeled images `get_labeled_images` finds -/
  labeledCount : Nat
  /-- the copy and yaml I/O of step 2 raises no exception -/
  splitOk : Bool
  /-- `DATASET_YAML.exists()` (step 3 precondition) -/
  datasetYamlExists : Bool
  /-- images counted in `TRAIN_IMAGES_DIR` (step 3 precondition) -/
  trainImageCount : Nat
  /-- `--fine-tune-model-path` override, if supplied -/
  fineTunePath : Option String
  /-- the fine-tune weights file exists -/
  fineTuneExists : Bool
  /-- answer of the "Start training?" gate -/
  trainConfirm : Bool
  /-- the external training invocation succeeds -/
  trainOk : Bool
  /-- `best.pt` exists in the weights folder (step 4 precondition) -/
  bestExists : Bool
  /-- `last.pt` exists in the weights folder (step 4 precondition) -/
  lastExists : Bool
  /-- answer of the "Export model?" gate -/
  exportConfirm : Bool
  /-- the export loop and config merge raise no exception -/
  exportOk : Bool
  /-- the timestamp version stamp generated by step 4 -/
  version : String
  /-- artifacts already on disk when a mid-loop export failure occurs -/
  exportPartialWrites : List String

/-- `step_clean`: nothing to clean and a declined gate both count as success;
only an exception while removing is a failure. -/
def stepClean (e : PipelineEnv) : StepResult :=
  if e.trainValFileCount == 0 then .ok
  else if !e.cleanConfirm then .skipped
  else if e.cleanOk then .ok
  else .failed "Failed to clean folders"

/-- `step_split`: source-data and class-file preconditions, the gate, then the
actual split. -/
def stepSplit (e : PipelineEnv) : StepResult :=
  if e.srcImageCount == 0 then .failed "No images found! Capture and label images first."
  else if e.srcLabelCount == 0 then .failed "No labels found! Label your images with LabelImg first."
  else if !e.classesFileExists then .failed ("classes.txt not found at " ++ classesFileStr)
  else if !e.splitConfirm then .skipped
  else if e.labeledCount == 0 then .failed "No labeled images found!"
  else if e.splitOk then .ok
  else .failed "Failed to split dataset"

/-- `base_model_to_use = runtime_cfg.fine_tune_model_path or config.BASE_MODEL`
(Python `or`: `None` and the empty string both fall back to the default). -/
def baseModelToUse (e : PipelineEnv) : String :=
  match e.fineTunePath with
  | some p => if p = "" then BASE_MODEL else p
  | none => BASE_MODEL

/-- `step_train`: requires the dataset description document and a populated
train folder, checks the fine-tune source when one is configured, gates, then
invokes the external engine. -/
def stepTrain (e : PipelineEnv) : StepResult :=
  if !e.datasetYamlExists then .failed ("dataset.yaml not found at " ++ datasetYamlStr)
  else if e.trainImageCount == 0 then .failed "No training images found! Run the split step first."
  else if (baseModelToUse e != BASE_MODEL) && !e.fineTuneExists then
    .failed ("Fine-tune model not found: " ++ baseModelToUse e)
  else if !e.trainConfirm then .skipped
  else if e.trainOk then .ok
  else .failed "Training failed"

/-- The artifact filenames a fully successful export writes: the versioned
`.pt` copy plus an `.onnx` and a `.txt` for each of the two export sizes. -/
def exportWrites (version : String) : List String :=
  let base := MODEL_NAME ++ "_v" ++ version
  [base ++ ".pt", base ++ "_640.onnx", base ++ "_640.txt",
   base ++ "_1440.onnx", base ++ "_1440.txt"]

/-- `step_export` of the pipeline: result together with the artifact filenames
written.  The weights precondition is checked before the gate and before any
write. -/
def stepExport (e : PipelineEnv) : StepResult × List String :=
  if !e.bestExists && !e.lastExists then
    (.failed ("No trained model found in " ++ weightsDirStr), [])
  else if !e.exportConfirm then (.skipped, [])
  else if e.exportOk then (.ok, exportWrites e.version)
  else (.failed "Export failed", e.exportPartialWrites)

/-- `weights_path = best_pt if best_pt.exists() else last_pt` of `step_export`
(reached only when at least one of the two exists). -/
def pipelineWeightsChoice (bestExists : Bool) : String :=
  if bestExists then bestPtPath else lastPtPath

/-- The step body run for state `n` (states are numbered 1–4). -/
def stepOf (e : PipelineEnv) (n : Nat) : StepResult :=
  if n = 1 then stepClean e
  else if n = 2 then stepSplit e
  else if n = 3 then stepTrain e
  else if n = 4 then (stepExport e).1
  else .ok

/-- The step-sequencing of `main` lines 649–673 over a list of state numbers:
a state is bypassed when its number is below `skip-to`; a run state that fails
stops the pipeline with `sys.exit(1)`.  Returns the states whose bodies ran
(the failing one included) and the process exit code. -/
def runSteps (e : PipelineEnv) (skipTo : Nat) : List Nat → List Nat × Nat
  | [] => ([], 0)
  | n :: ns =>
    if skipTo ≤ n then
      if (stepOf e n).success = true then
        ((runSteps e skipTo ns).1.cons n, (runSteps e skipTo ns).2)
      else ([n], 1)
    else runSteps e skipTo ns

/-- The whole pipeline: states Clean, Split, Train, Export in order. -/
def runPipeline (skipTo : Nat) (e : PipelineEnv) : List Nat × Nat :=
  runSteps e skipTo [1, 2, 3, 4]

/-! ## Downstream config merge (`step_export` lines 492–537)

The source computes the existing label names and the union of the three tiers
as Python sets once, before the loop over the class list, then appends to the
`labels` array and the `primaryLabels` array. -/

/-- An entry of the `labels` array of `game_config.json`. -/
structure LabelEntry where
  name : String
  description : String
deriving DecidableEq, Repr

/-- The downstream configuration document fields the merge touches. -/
structure GameConfig where
  modelFile : String
  labels : List LabelEntry
  primaryLabels : List String
  secondaryLabels : List String
  tertiaryLabels : List String
deriving DecidableEq, Repr

/-- `existing_labels = {label.get("name") for label in game_cfg.get("labels", [])}`. -/
def existingLabelNames (g : GameConfig) : List String := g.labels.map LabelEntry.name

/-- `all_existing_tiers = existing_primary | existing_secondary | existing_tertiary`. -/
def allExistingTiers (g : GameConfig) : List String :=
  g.primaryLabels ++ g.secondaryLabels ++ g.tertiaryLabels

/-- The `for class_name in class_names` loop: append a label entry when the name
is not among the pre-loop label names, and append to the default (primary) tier
when the name is in none of the three pre-loop tiers. -/
def mergeLoop (L T : List String) : GameConfig → List String → GameConfig
  | g, [] => g
  | g, c :: cs =>
    let g1 := if L.contains c then g else { g with labels := g.labels ++ [⟨c, ""⟩] }
    let g2 := if T.contains c then g1
              else { g1 with primaryLabels := g1.primaryLabels ++ [c] }
    mergeLoop L T g2 cs

/-- The whole read-modify-write merge of `step_export`: set `modelFile` to the
canonical artifact and run the class-list loop against the membership sets
computed before it. -/
def mergeDownstreamConfig (g : GameConfig) (classNames : List String)
    (defaultModelFile : String) : GameConfig :=
  mergeLoop (existingLabelNames g) (allExistingTiers g)
    { g with modelFile := defaultModelFile } classNames

/-- `n` successive merges of the same class list into the same document. -/
def mergeIter (g : GameConfig) (classNames : List String) (d : String) : Nat → GameConfig
  | 0 => g
  | n + 1 => mergeDownstreamConfig (mergeIter g classNames d n) classNames d

/-! ## Standalone exporter (`export_model.find_trained_model`) -/

/-- `find_trained_model(use_last)`: look only at the single file the flag
selects and raise `FileNotFoundError` naming that file when it is absent. -/
def find_trained_model (useLast : Bool) (bestExists lastExists : Bool) :
    Except String String :=
  let weightsFile := if useLast then lastPtPath else bestPtPath
  let fileExists := if useLast then lastExists else bestExists
  if fileExists then .ok weightsFile
  else .error ("Model weights not found: " ++ weightsFile)

/-! ## Concrete fixtures used by witnesses and counterexamples -/

/-- A small concrete raw-images folder. -/
def wImgs : List ImageFile :=
  [⟨"alpha", ".jpg"⟩, ⟨"bravo", ".png"⟩, ⟨"charlie", ".jpeg"⟩,
   ⟨"delta", ".jpg"⟩, ⟨"echo", ".txt"⟩, ⟨"foxtrot", ".jpg"⟩]

/-- Its labels folder: `bravo` has an all-whitespace label file, `delta` has
no label file, and `echo` is not an image. -/
def wLabelOf : String → Option String := fun stem =>
  if stem = "alpha" then some "0 0.5 0.5 0.2 0.2"
  else if stem = "bravo" then some "   "
  else if stem = "charlie" then some "1 0.1 0.1 0.1 0.1"
  else if stem = "foxtrot" then some "2 0.3 0.3 0.1 0.1"
  else none

/-- A concrete pipeline environment: nothing to clean, the split declined at
its gate, no dataset description document, and no trained weights. -/
def wPipeEnv : PipelineEnv :=
  { trainValFileCount := 0, cleanConfirm := true, cleanOk := true,
    srcImageCount := 3, srcLabelCount := 3, classesFileExists := true,
    splitConfirm := false, labeledCount := 3, splitOk := true,
    datasetYamlExists := false, trainImageCount := 0, fineTunePath := none,
    fineTuneExists := false, trainConfirm := true, trainOk := true,
    bestExists := false, lastExists := false, exportConfirm := true,
    exportOk := true, version := "20260101_000000", exportPartialWrites := [] }

/-- The C7 scenario document: label "ammo" listed and assigned to the
secondary tier. -/
def ammoDoc : GameConfig :=
  { modelFile := "OldModel.onnx", labels := [⟨"ammo", ""⟩],
    primaryLabels := [], secondaryLabels := ["ammo"], tertiaryLabels := [] }

/-- An empty filesystem. -/
def cexFS : FS := fun _ => none

/-! # Theorems -/

/-! ## Shuffle and split lemmas -/

theorem pick_len {α : Type} : ∀ (x : α) (xs : List α) (i : Nat),
    ((pick x xs i).2).length = xs.length
  | _, xs, 0 => by cases xs <;> rfl
  | _, [], _ + 1 => rfl
  | x, y :: ys, i + 1 => by
    simp only [pick]
    simp [pick_len y ys i]

theorem pick_perm {α : Type} : ∀ (x : α) (xs : List α) (i : Nat),
    List.Perm ((pick x xs i).1 :: (pick x xs i).2) (x :: xs)
  | _, xs, 0 => by cases xs <;> exact List.Perm.refl _
  | _, [], _ + 1 => List.Perm.refl _
  | x, y :: ys, i + 1 => by
    have h := pick_perm y ys i
    simp only [pick]
    exact (List.Perm.swap x (pick y ys i).1 (pick y ys i).2).trans (h.cons x)

theorem shuffleGo_perm {α : Type} (fuel : Nat) :
    ∀ (g : Nat) (xs : List α), xs.length = fuel → List.Perm (shuffleGo g fuel xs) xs := by
  induction fuel with
  | zero =>
    intro g xs h
    rw [List.length_eq_zero] at h
    subst h
    simp [shuffleGo]
  | succ n ih =>
    intro g xs h
    match xs with
    | [] => simp [shuffleGo]
    | x :: xs =>
      simp only [shuffleGo]
      have hx : xs.length = n := by simpa using h
      have hl : ((pick x xs (g % (xs.length + 1))).2).length = n := by
        rw [pick_len]; exact hx
      have ihp := ih (lcgNext g) _ hl
      exact (ihp.cons _).trans (pick_perm x xs (g % (xs.length + 1)))

theorem seededShuffle_perm {α : Type} (seed : Nat) (xs : List α) :
    List.Perm (seededShuffle seed xs) xs :=
  shuffleGo_perm xs.length seed xs rfl

theorem splitIdx_le (n : Nat) : splitIdx n ≤ n := by
  have h1 : (n : ℚ) * trainFrac ≤ (n : ℚ) := by
    apply mul_le_of_le_one_right
    · positivity
    · norm_num [trainFrac]
  have h2 : ⌊(n : ℚ) * trainFrac⌋ ≤ (n : ℤ) := by
    calc ⌊(n : ℚ) * trainFrac⌋ ≤ ⌊(n : ℚ)⌋ := Int.floor_le_floor h1
    _ = (n : ℤ) := Int.floor_natCast n
  exact Int.toNat_le.mpr h2

theorem splitIdx_spec_100 : splitIdx 100 = 80 := by
  have h : ((100 : Nat) : ℚ) * trainFrac = ((80 : ℤ) : ℚ) := by
    norm_num [trainFrac]
  rw [splitIdx, h, Int.floor_intCast]
  rfl

theorem getLabeledImages_nodup (imgs : List ImageFile) (labelOf : String → Option String)
    (hnd : (imgs.map ImageFile.name).Nodup) : (getLabeledImages imgs labelOf).Nodup := by
  have hsub : (getLabeledImages imgs labelOf).Sublist (imgs.map ImageFile.name) :=
    (List.filter_sublist imgs).map ImageFile.name
  exact hnd.sublist hsub

theorem mem_getLabeledImages_iff (imgs : List ImageFile) (labelOf : String → Option String)
    (f : ImageFile) (hnd : (imgs.map ImageFile.name).Nodup) (hf : f ∈ imgs) :
    f.name ∈ getLabeledImages imgs labelOf ↔ isLabeled labelOf f = true := by
  constructor
  · intro h
    rcases List.mem_map.mp h with ⟨f', hf', hname⟩
    rcases List.mem_filter.mp hf' with ⟨hf'mem, hp⟩
    have heq : f' = f := List.inj_on_of_nodup_map hnd hf'mem hf hname
    rwa [← heq]
  · intro hp
    exact List.mem_map_of_mem ImageFile.name (List.mem_filter.mpr ⟨hf, hp⟩)

theorem hasNonemptyLabel_iff (labelOf : String → Option String) (stem : String) :
    hasNonemptyLabel labelOf stem = true ↔ ∃ c, labelOf stem = some c ∧ trimStr c ≠ "" := by
  unfold hasNonemptyLabel
  cases h : labelOf stem with
  | none => simp
  | some c => simp

theorem partition_spec (seed : Nat) (L : List String) (hnd : L.Nodup) :
    ((partition seed L).1 ++ (partition seed L).2).Perm L
    ∧ (∀ x ∈ (partition seed L).1, x ∉ (partition seed L).2)
    ∧ (partition seed L).1.length = splitIdx L.length
    ∧ (partition seed L).2.length = L.length - splitIdx L.length := by
  have hperm : (seededShuffle seed L).Perm L := seededShuffle_perm seed L
  have hlen : (seededShuffle seed L).length = L.length := hperm.length_eq
  have htd : (partition seed L).1 ++ (partition seed L).2 = seededShuffle seed L := by
    simp [partition, List.take_append_drop]
  have hap : ((partition seed L).1 ++ (partition seed L).2).Perm L := by
    rw [htd]; exact hperm
  have hnda : ((partition seed L).1 ++ (partition seed L).2).Nodup := by
    rw [htd]; exact (hperm.nodup_iff).mpr hnd
  have hdisj := (List.nodup_append.mp hnda).2.2
  refine ⟨hap, ?_, ?_, ?_⟩
  · exact fun x hx hx2 => hdisj hx hx2
  · simp [partition, List.length_take, hlen, Nat.min_eq_left (splitIdx_le L.length)]
  · simp [partition, List.length_drop, hlen]

theorem partition_subset (seed : Nat) (L : List String) (x : String) :
    (x ∈ (partition seed L).1 → x ∈ L) ∧ (x ∈ (partition seed L).2 → x ∈ L) := by
  have hperm : (seededShuffle seed L).Perm L := seededShuffle_perm seed L
  constructor
  · intro hx
    exact hperm.mem_iff.mp (List.take_subset _ _ hx)
  · intro hx
    exact hperm.mem_iff.mp (List.drop_subset _ _ hx)

/-! ## Claims C1, C4, C5 -/

/-- C1: for every non-empty filtered labeled-image set, the seeded split is a
partition of it — train ++ val is a permutation of the filtered set, train and
val are disjoint, `|train| = ⌊|all| * ratio⌋` with the remainder in val; in
particular 100 labeled images give a training set of size 80 and a validation
set of size 20. -/
theorem split_partition_correct (imgs : List ImageFile) (labelOf : String → Option String)
    (seed : Nat) (hnd : (imgs.map ImageFile.name).Nodup)
    (_hne : getLabeledImages imgs labelOf ≠ []) :
    (((partition seed (getLabeledImages imgs labelOf)).1
        ++ (partition seed (getLabeledImages imgs labelOf)).2).Perm
      (getLabeledImages imgs labelOf))
    ∧ (∀ x ∈ (partition seed (getLabeledImages imgs labelOf)).1,
        x ∉ (partition seed (getLabeledImages imgs labelOf)).2)
    ∧ (partition seed (getLabeledImages imgs labelOf)).1.length
        = splitIdx (getLabeledImages imgs labelOf).length
    ∧ (partition seed (getLabeledImages imgs labelOf)).2.length
        = (getLabeledImages imgs labelOf).length
          - splitIdx (getLabeledImages imgs labelOf).length
    ∧ ((getLabeledImages imgs labelOf).length = 100 →
        (partition seed (getLabeledImages imgs labelOf)).1.length = 80
        ∧ (partition seed (getLabeledImages imgs labelOf)).2.length = 20) := by
  have h := partition_spec seed (getLabeledImages imgs labelOf)
    (getLabeledImages_nodup imgs labelOf hnd)
  refine ⟨h.1, h.2.1, h.2.2.1, h.2.2.2, ?_⟩
  intro h100
  constructor
  · rw [h.2.2.1, h100, splitIdx_spec_100]
  · rw [h.2.2.2, h100, splitIdx_spec_100]

theorem split_partition_correct_witness :
    getLabeledImages wImgs wLabelOf ≠ []
    ∧ (((partition 42 (getLabeledImages wImgs wLabelOf)).1
        ++ (partition 42 (getLabeledImages wImgs wLabelOf)).2).Perm
       (getLabeledImages wImgs wLabelOf)) :=
  ⟨by decide, (split_partition_correct wImgs wLabelOf 42 (by decide) (by decide)).1⟩

/-- C4: a candidate image (accepted extension) is in the labeled set iff a
same-stem annotation file exists with non-empty trimmed content, and an image
whose annotation file is missing or all-whitespace appears in neither the
training set nor the validation set. -/
theorem labeled_iff_labelfile (imgs : List ImageFile) (labelOf : String → Option String)
    (seed : Nat) (f : ImageFile)
    (hnd : (imgs.map ImageFile.name).Nodup) (hf : f ∈ imgs) :
    (isImageExt f.ext = true →
      (f.name ∈ getLabeledImages imgs labelOf
        ↔ ∃ c, labelOf f.stem = some c ∧ trimStr c ≠ ""))
    ∧ (hasNonemptyLabel labelOf f.stem = false →
        f.name ∉ (partition seed (getLabeledImages imgs labelOf)).1
        ∧ f.name ∉ (partition seed (getLabeledImages imgs labelOf)).2) := by
  have hmem := mem_getLabeledImages_iff imgs labelOf f hnd hf
  constructor
  · intro hext
    rw [hmem, ← hasNonemptyLabel_iff labelOf f.stem]
    unfold isLabeled
    simp [hext]
  · intro hno
    have hnotin : f.name ∉ getLabeledImages imgs labelOf := by
      rw [hmem]
      unfold isLabeled
      simp [hno]
    constructor
    · intro hin
      exact hnotin ((partition_subset seed (getLabeledImages imgs labelOf) f.name).1 hin)
    · intro hin
      exact hnotin ((partition_subset seed (getLabeledImages imgs labelOf) f.name).2 hin)

theorem labeled_iff_labelfile_witness :
    (List.map ImageFile.name wImgs).Nodup
    ∧ (⟨"delta", ".jpg"⟩ : ImageFile) ∈ wImgs
    ∧ hasNonemptyLabel wLabelOf "delta" = false
    ∧ ImageFile.name ⟨"delta", ".jpg"⟩ ∉ (partition 7 (getLabeledImages wImgs wLabelOf)).1 :=
  ⟨by decide, by decide, by decide,
   ((labeled_iff_labelfile wImgs wLabelOf 7 ⟨"delta", ".jpg"⟩
      (by decide) (by decide)).2 (by decide)).1⟩

/-- C5: the partition is a deterministic function of the seed and the input
list — with the seed supplied (in particular the source's `RANDOM_SEED = 42`),
two runs from any two prior global generator states produce identical train
and validation membership. -/
theorem partition_deterministic (g1 g2 s : Nat) (labeled : List String) :
    partitionFrom g1 (some s) labeled = partitionFrom g2 (some s) labeled
    ∧ partitionFrom g1 (some s) labeled = partition s labeled
    ∧ partitionFrom g1 RANDOM_SEED labeled = partitionFrom g2 RANDOM_SEED labeled :=
  ⟨rfl, rfl, rfl⟩

/-! ## Pipeline sequencing lemmas -/

theorem runSteps_subset (e : PipelineEnv) (k : Nat) :
    ∀ (ns : List Nat) (j : Nat), j ∈ (runSteps e k ns).1 → j ∈ ns := by
  intro ns
  induction ns with
  | nil => intro j hj; simp [runSteps] at hj
  | cons n ns ih =>
    intro j hj
    simp only [runSteps] at hj
    by_cases h1 : k ≤ n
    · rw [if_pos h1] at hj
      by_cases h2 : (stepOf e n).success = true
      · rw [if_pos h2] at hj
        rcases List.mem_cons.mp hj with hn | hr
        · exact hn ▸ List.mem_cons_self n ns
        · exact List.mem_cons_of_mem n (ih j hr)
      · rw [if_neg h2] at hj
        have : j = n := by simpa using hj
        exact this ▸ List.mem_cons_self n ns
    · rw [if_neg h1] at hj
      exact List.mem_cons_of_mem n (ih j hj)

theorem runSteps_earlier (e : PipelineEnv) (k : Nat) :
    ∀ (ns : List Nat), ns.Pairwise (· < ·) → ∀ j, j ∈ (runSteps e k ns).1 →
      ∀ i, i ∈ ns → k ≤ i → i < j → (stepOf e i).success = true := by
  intro ns
  induction ns with
  | nil => intro _ j hj; simp [runSteps] at hj
  | cons n ns ih =>
    intro hp j hj i hi hk hij
    have hpn : ∀ m ∈ ns, n < m := (List.pairwise_cons.mp hp).1
    have hp' := (List.pairwise_cons.mp hp).2
    simp only [runSteps] at hj
    by_cases h1 : k ≤ n
    · rw [if_pos h1] at hj
      by_cases h2 : (stepOf e n).success = true
      · rw [if_pos h2] at hj
        rcases List.mem_cons.mp hj with hjn | hjr
        · subst hjn
          rcases List.mem_cons.mp hi with hin | hins
          · omega
          · have := hpn i hins
            omega
        · rcases List.mem_cons.mp hi with hin | hins
          · subst hin; exact h2
          · exact ih hp' j hjr i hins hk hij
      · rw [if_neg h2] at hj
        have hjn : j = n := by simpa using hj
        subst hjn
        rcases List.mem_cons.mp hi with hin | hins
        · omega
        · have := hpn i hins
          omega
    · rw [if_neg h1] at hj
      rcases List.mem_cons.mp hi with hin | hins
      · subst hin; exact absurd hk h1
      · exact ih hp' j hj i hins hk hij

theorem runSteps_halt (e : PipelineEnv) (k : Nat) :
    ∀ (ns : List Nat), ns.Pairwise (· < ·) → ∀ j, j ∈ (runSteps e k ns).1 →
      (stepOf e j).success = false →
      (runSteps e k ns).2 = 1 ∧ ∀ m, j < m → m ∉ (runSteps e k ns).1 := by
  intro ns
  induction ns with
  | nil => intro _ j hj; simp [runSteps] at hj
  | cons n ns ih =>
    intro hp j hj hfail
    have hpn : ∀ m ∈ ns, n < m := (List.pairwise_cons.mp hp).1
    have hp' := (List.pairwise_cons.mp hp).2
    simp only [runSteps] at hj ⊢
    by_cases h1 : k ≤ n
    · by_cases h2 : (stepOf e n).success = true
      · rw [if_pos h1] at hj ⊢
        rw [if_pos h2] at hj ⊢
        rcases List.mem_cons.mp hj with hjn | hjr
        · subst hjn
          rw [hfail] at h2
          cases h2
        · have hrec := ih hp' j hjr hfail
          refine ⟨hrec.1, ?_⟩
          intro m hm hmem
          rcases List.mem_cons.mp hmem with hmn | hmr
          · subst hmn
            have hjgt : m < j := hpn j (runSteps_subset e k ns j hjr)
            omega
          · exact hrec.2 m hm hmr
      · rw [if_pos h1] at hj ⊢
        rw [if_neg h2] at hj ⊢
        have hjn : j = n := by simpa using hj
        subst hjn
        refine ⟨rfl, ?_⟩
        intro m hm hmem
        have : m = j := by simpa using hmem
        omega
    · rw [if_neg h1] at hj ⊢
      exact ih hp' j hj hfail

/-! ## Claim C2 -/

/-- C2: a pipeline state's body runs only if every earlier non-bypassed state
succeeded, where a step suppressed by a negative confirmation ("skipped")
counts as success; a failing state gives exit code 1 and no later state runs;
and with `skip-to = 3` and no dataset description document the Train state
fails with an error naming `dataset.yaml` and the Export state never runs. -/
theorem pipeline_halts_in_order (e : PipelineEnv) (skipTo j : Nat) :
    (j ∈ (runPipeline skipTo e).1 →
      (∀ i, 1 ≤ i → i ≤ 4 → skipTo ≤ i → i < j → (stepOf e i).success = true)
      ∧ ((stepOf e j).success = false →
          (runPipeline skipTo e).2 = 1
          ∧ ∀ m, j < m → m ∉ (runPipeline skipTo e).1))
    ∧ StepResult.success .skipped = true
    ∧ (e.cleanConfirm = false → (stepClean e).success = true)
    ∧ (e.datasetYamlExists = false →
        runPipeline 3 e = ([3], 1)
        ∧ stepTrain e = .failed ("dataset.yaml not found at " ++ datasetYamlStr)
        ∧ mentionsStr ("dataset.yaml not found at " ++ datasetYamlStr) "dataset.yaml" = true
        ∧ 4 ∉ (runPipeline 3 e).1) := by
  have hpw : ([1, 2, 3, 4] : List Nat).Pairwise (· < ·) := by decide
  refine ⟨?_, rfl, ?_, ?_⟩
  · intro hj
    constructor
    · intro i h1 h4 hk hij
      have hi : i ∈ ([1, 2, 3, 4] : List Nat) := by interval_cases i <;> simp
      exact runSteps_earlier e skipTo [1, 2, 3, 4] hpw j hj i hi hk hij
    · intro hfail
      exact runSteps_halt e skipTo [1, 2, 3, 4] hpw j hj hfail
  · intro hc
    unfold stepClean
    by_cases h0 : e.trainValFileCount == 0 <;>
      simp [h0, hc, StepResult.success]
  · intro hy
    have htr : stepTrain e = .failed ("dataset.yaml not found at " ++ datasetYamlStr) := by
      unfold stepTrain
      simp [hy]
    have hrun : runPipeline 3 e = ([3], 1) := by
      simp [runPipeline, runSteps, stepOf, htr, StepResult.success]
    refine ⟨hrun, htr, by decide, ?_⟩
    rw [hrun]
    simp

theorem pipeline_halts_in_order_witness :
    3 ∈ (runPipeline 1 wPipeEnv).1
    ∧ wPipeEnv.datasetYamlExists = false
    ∧ (runPipeline 3 wPipeEnv = ([3], 1)
       ∧ stepTrain wPipeEnv = .failed ("dataset.yaml not found at " ++ datasetYamlStr)
       ∧ mentionsStr ("dataset.yaml not found at " ++ datasetYamlStr) "dataset.yaml" = true
       ∧ 4 ∉ (runPipeline 3 wPipeEnv).1) :=
  ⟨by decide, by decide, (pipeline_halts_in_order wPipeEnv 1 3).2.2.2 (by decide)⟩

/-! ## Downstream-config merge lemmas -/

theorem contains_iff (l : List String) (a : String) : l.contains a = true ↔ a ∈ l := by
  induction l with
  | nil => simp
  | cons x xs ih => simp [List.contains_cons, ih]

theorem contains_false_iff (l : List String) (a : String) : l.contains a = false ↔ a ∉ l := by
  rw [← contains_iff]
  cases l.contains a <;> simp

theorem mergeLoop_spec (L T : List String) :
    ∀ (cs : List String) (g : GameConfig),
      mergeLoop L T g cs =
        { modelFile := g.modelFile,
          labels := g.labels
            ++ (cs.filter (fun c => !(L.contains c))).map (fun c => ⟨c, ""⟩),
          primaryLabels := g.primaryLabels ++ cs.filter (fun c => !(T.contains c)),
          secondaryLabels := g.secondaryLabels,
          tertiaryLabels := g.tertiaryLabels }
  | [], g => by simp [mergeLoop]
  | c :: cs, g => by
    simp only [mergeLoop]
    rw [mergeLoop_spec L T cs]
    by_cases h1 : c ∈ L <;> by_cases h2 : c ∈ T <;>
      simp [h1, h2, List.filter_cons]

theorem mergeDownstreamConfig_spec (g : GameConfig) (C : List String) (d : String) :
    mergeDownstreamConfig g C d =
      { modelFile := d,
        labels := g.labels
          ++ (C.filter (fun c => !((existingLabelNames g).contains c))).map
              (fun c => ⟨c, ""⟩),
        primaryLabels := g.primaryLabels
          ++ C.filter (fun c => !((allExistingTiers g).contains c)),
        secondaryLabels := g.secondaryLabels,
        tertiaryLabels := g.tertiaryLabels } := by
  unfold mergeDownstreamConfig
  rw [mergeLoop_spec]

theorem mem_labelNames_merge (g : GameConfig) (C : List String) (d : String) (c : String)
    (hc : c ∈ C) : c ∈ existingLabelNames (mergeDownstreamConfig g C d) := by
  rw [mergeDownstreamConfig_spec]
  unfold existingLabelNames
  simp only [List.map_append, List.mem_append]
  by_cases h : c ∈ g.labels.map LabelEntry.name
  · exact Or.inl h
  · right
    rw [List.map_map]
    refine List.mem_map.mpr ⟨c, ?_, rfl⟩
    have hcont : ((List.map LabelEntry.name g.labels).contains c) = false := by
      rw [contains_false_iff]
      exact h
    exact List.mem_filter.mpr ⟨hc, by rw [hcont]; rfl⟩

theorem mem_tiers_merge (g : GameConfig) (C : List String) (d : String) (c : String)
    (hc : c ∈ C) : c ∈ allExistingTiers (mergeDownstreamConfig g C d) := by
  rw [mergeDownstreamConfig_spec]
  unfold allExistingTiers
  by_cases h : c ∈ allExistingTiers g
  · unfold allExistingTiers at h
    simp only [List.mem_append] at h ⊢
    tauto
  · have hcont : (allExistingTiers g).contains c = false := by
      rw [contains_false_iff]
      exact h
    have hf : c ∈ C.filter (fun c => !((allExistingTiers g).contains c)) :=
      List.mem_filter.mpr ⟨hc, by rw [hcont]; rfl⟩
    simp only [List.mem_append] at hf ⊢
    tauto

theorem merge_idempotent_aux (g : GameConfig) (C : List String) (d : String) :
    mergeDownstreamConfig (mergeDownstreamConfig g C d) C d = mergeDownstreamConfig g C d := by
  have hL : C.filter
      (fun c => !((existingLabelNames (mergeDownstreamConfig g C d)).contains c)) = [] := by
    rw [List.filter_eq_nil_iff]
    intro c hc
    simp [contains_iff, mem_labelNames_merge g C d c hc]
  have hT : C.filter
      (fun c => !((allExistingTiers (mergeDownstreamConfig g C d)).contains c)) = [] := by
    rw [List.filter_eq_nil_iff]
    intro c hc
    simp [contains_iff, mem_tiers_merge g C d c hc]
  rw [mergeDownstreamConfig_spec (mergeDownstreamConfig g C d) C d, hL, hT]
  rw [mergeDownstreamConfig_spec g C d]
  simp

theorem mergeIter_stable (g : GameConfig) (C : List String) (d : String) :
    ∀ n, mergeIter g C d (n + 1) = mergeDownstreamConfig g C d
  | 0 => rfl
  | n + 1 => by
    show mergeDownstreamConfig (mergeIter g C d (n + 1)) C d = _
    rw [mergeIter_stable g C d n, merge_idempotent_aux]

/-! ## Claims C3 and C7 -/

/-- C3: the export merge is monotonic and idempotent — it only appends to the
labels array and the default tier, leaves the other tiers untouched, merging
the same class list a second time changes nothing, and `n + 1` merges of the
same class list leave exactly the label count of one merge. -/
theorem merge_monotone_idempotent (g : GameConfig) (C : List String) (d : String) (n : Nat) :
    (∃ newL, (mergeDownstreamConfig g C d).labels = g.labels ++ newL)
    ∧ (∃ newP, (mergeDownstreamConfig g C d).primaryLabels = g.primaryLabels ++ newP)
    ∧ (mergeDownstreamConfig g C d).secondaryLabels = g.secondaryLabels
    ∧ (mergeDownstreamConfig g C d).tertiaryLabels = g.tertiaryLabels
    ∧ mergeDownstreamConfig (mergeDownstreamConfig g C d) C d = mergeDownstreamConfig g C d
    ∧ mergeIter g C d (n + 1) = mergeDownstreamConfig g C d
    ∧ (mergeIter g C d (n + 1)).labels.length
        = (mergeDownstreamConfig g C d).labels.length := by
  refine ⟨⟨(C.filter (fun c => !((existingLabelNames g).contains c))).map
      (fun c => ⟨c, ""⟩), by simp [mergeDownstreamConfig_spec]⟩,
    ⟨C.filter (fun c => !((allExistingTiers g).contains c)),
      by simp [mergeDownstreamConfig_spec]⟩,
    by simp [mergeDownstreamConfig_spec],
    by simp [mergeDownstreamConfig_spec],
    merge_idempotent_aux g C d, mergeIter_stable g C d n,
    by rw [mergeIter_stable g C d n]⟩

/-- C7: after a merge with class list `C`, every class absent from all three
tiers is appended to the default (primary) tier, the secondary and tertiary
tiers are unchanged; in the concrete scenario a document with "ammo" in
`secondary` merged with ["ammo", "crate"] gains "crate" in the default tier
while "ammo" stays in `secondary`. -/
theorem merge_default_tier (g : GameConfig) (C : List String) (d : String) :
    (mergeDownstreamConfig g C d).primaryLabels
      = g.primaryLabels ++ C.filter (fun c => !((allExistingTiers g).contains c))
    ∧ (∀ c, c ∈ C → c ∉ allExistingTiers g →
        c ∈ (mergeDownstreamConfig g C d).primaryLabels)
    ∧ (mergeDownstreamConfig g C d).secondaryLabels = g.secondaryLabels
    ∧ (mergeDownstreamConfig g C d).tertiaryLabels = g.tertiaryLabels
    ∧ (mergeDownstreamConfig ammoDoc ["ammo", "crate"] d).primaryLabels = ["crate"]
    ∧ (mergeDownstreamConfig ammoDoc ["ammo", "crate"] d).secondaryLabels = ["ammo"] := by
  refine ⟨?_, ?_, ?_, ?_, ?_, ?_⟩
  · simp [mergeDownstreamConfig_spec]
  · intro c hc hnt
    rw [mergeDownstreamConfig_spec]
    have hcont : (allExistingTiers g).contains c = false := by
      rw [contains_false_iff]
      exact hnt
    have hf : c ∈ C.filter (fun c => !((allExistingTiers g).contains c)) :=
      List.mem_filter.mpr ⟨hc, by rw [hcont]; rfl⟩
    simp only [List.mem_append]
    exact Or.inr hf
  · simp [mergeDownstreamConfig_spec]
  · simp [mergeDownstreamConfig_spec]
  · rw [mergeDownstreamConfig_spec ammoDoc ["ammo", "crate"] d]
    show ammoDoc.primaryLabels
        ++ List.filter (fun c => !((allExistingTiers ammoDoc).contains c)) ["ammo", "crate"]
      = ["crate"]
    decide
  · rw [mergeDownstreamConfig_spec ammoDoc ["ammo", "crate"] d]
    show ammoDoc.secondaryLabels = ["ammo"]
    rfl

theorem merge_default_tier_witness :
    "crate" ∈ (["ammo", "crate"] : List String)
    ∧ "crate" ∉ allExistingTiers ammoDoc
    ∧ "crate" ∈ (mergeDownstreamConfig ammoDoc ["ammo", "crate"] "M.onnx").primaryLabels :=
  ⟨by decide, by decide,
   (merge_default_tier ammoDoc ["ammo", "crate"] "M.onnx").2.1 "crate"
     (by decide) (by decide)⟩

/-! ## Claims C6 and C9 -/

/-- C6 counterexample: with both candidate weight files absent the pipeline
export step does abort before any write, but its error message names neither
`best.pt` nor `last.pt` — it names only the weights folder — and the
standalone exporter's error names only the single file its flag selects; so
the claim that the precondition error names both candidate filenames is false
on the code. -/
theorem missing_weights_naming_counterexample :
    (stepExport wPipeEnv).1 = .failed ("No trained model found in " ++ weightsDirStr)
    ∧ (stepExport wPipeEnv).2 = []
    ∧ mentionsStr ("No trained model found in " ++ weightsDirStr) "best.pt" = false
    ∧ mentionsStr ("No trained model found in " ++ weightsDirStr) "last.pt" = false
    ∧ find_trained_model false false false
        = .error ("Model weights not found: " ++ bestPtPath)
    ∧ mentionsStr ("Model weights not found: " ++ bestPtPath) "last.pt" = false :=
  ⟨by decide, by decide, by decide, by decide, rfl, by decide⟩

/-- C6 (amended): if both candidate weight files are absent at export time,
the pipeline export step aborts with a precondition error naming the weights
folder it searched and writes no artifact before the abort; the standalone
exporter aborts with an error naming the single candidate file its use-last
flag selects. -/
theorem missing_weights_abort (e : PipelineEnv)
    (hb : e.bestExists = false) (hl : e.lastExists = false) :
    (stepExport e).1 = .failed ("No trained model found in " ++ weightsDirStr)
    ∧ (stepExport e).2 = []
    ∧ mentionsStr ("No trained model found in " ++ weightsDirStr) weightsDirStr = true
    ∧ (∀ u, find_trained_model u e.bestExists e.lastExists
        = .error ("Model weights not found: " ++ (if u then lastPtPath else bestPtPath))
        ∧ mentionsStr ("Model weights not found: " ++ (if u then lastPtPath else bestPtPath))
            (if u then "last.pt" else "best.pt") = true) := by
  have h1 : stepExport e = (.failed ("No trained model found in " ++ weightsDirStr), []) := by
    unfold stepExport
    rw [hb, hl]
    rfl
  refine ⟨by rw [h1], by rw [h1], by decide, ?_⟩
  intro u
  rw [hb, hl]
  cases u
  · exact ⟨rfl, by decide⟩
  · exact ⟨rfl, by decide⟩

theorem missing_weights_abort_witness :
    wPipeEnv.bestExists = false ∧ wPipeEnv.lastExists = false
    ∧ (stepExport wPipeEnv).2 = [] :=
  ⟨by decide, by decide, (missing_weights_abort wPipeEnv (by decide) (by decide)).2.1⟩

/-- C9: when `best.pt` exists the pipeline export selects it, and `last.pt` is
selected only when `best.pt` is absent; the standalone exporter returns
`last.pt` only when its use-last flag is set, and otherwise looks only at
`best.pt`. -/
theorem weights_selection (b l u : Bool) :
    (b = true → pipelineWeightsChoice b = bestPtPath)
    ∧ (pipelineWeightsChoice b = lastPtPath → b = false)
    ∧ (u = false → find_trained_model u b l ≠ .ok lastPtPath)
    ∧ (u = false → b = true → find_trained_model u b l = .ok bestPtPath)
    ∧ (u = true → l = true → find_trained_model u b l = .ok lastPtPath) := by
  have hne : bestPtPath ≠ lastPtPath := by decide
  refine ⟨?_, ?_, ?_, ?_, ?_⟩
  · intro hb
    subst hb
    rfl
  · intro h
    cases b
    · rfl
    · exact absurd h hne
  · intro hu
    subst hu
    cases b
    · intro h
      exact Except.noConfusion h
    · intro h
      exact hne (Except.ok.inj h)
  · intro hu hb
    subst hu
    subst hb
    rfl
  · intro hu hl
    subst hu
    subst hl
    rfl

theorem weights_selection_witness :
    pipelineWeightsChoice true = bestPtPath
    ∧ find_trained_model false true true = .ok bestPtPath :=
  ⟨(weights_selection true true false).1 rfl,
   (weights_selection true true false).2.2.2.1 rfl rfl⟩

/-! ## Materialization lemmas -/

theorem copyFiles_eq (labelOf : String → Option String) :
    ∀ (ns di dl : List String),
      copyFiles labelOf ns (di, dl)
        = (List.foldl putFile di ns, List.foldl putFile dl (labelTargets labelOf ns)) := by
  intro ns
  induction ns with
  | nil => intro di dl; rfl
  | cons n ns ih =>
    intro di dl
    by_cases h : (labelOf (stemOf n)).isSome
    · have ht : labelTargets labelOf (n :: ns)
          = (stemOf n ++ ".txt") :: labelTargets labelOf ns := by
        simp [labelTargets, List.filter_cons, h]
      simp only [copyFiles, h, if_true, ht, List.foldl_cons]
      exact ih (putFile di n) (putFile dl (stemOf n ++ ".txt"))
    · have ht : labelTargets labelOf (n :: ns) = labelTargets labelOf ns := by
        simp [labelTargets, List.filter_cons, h]
      simp only [copyFiles, h, if_false, ht, List.foldl_cons]
      exact ih (putFile di n) dl

theorem mem_putFile (acc : List String) (n x : String) :
    x ∈ putFile acc n ↔ x ∈ acc ∨ x = n := by
  unfold putFile
  by_cases h : n ∈ acc
  · rw [if_pos h]
    constructor
    · exact Or.inl
    · rintro (ha | rfl)
      · exact ha
      · exact h
  · rw [if_neg h]
    simp

theorem mem_foldl_putFile (x : String) :
    ∀ (ns acc : List String), x ∈ List.foldl putFile acc ns ↔ x ∈ acc ∨ x ∈ ns := by
  intro ns
  induction ns with
  | nil => intro acc; simp
  | cons n ns ih =>
    intro acc
    rw [List.foldl_cons, ih, mem_putFile]
    simp only [List.mem_cons]
    tauto

theorem foldl_putFile_of_disjoint :
    ∀ (ns acc : List String), ns.Nodup → (∀ x ∈ ns, x ∉ acc) →
      List.foldl putFile acc ns = acc ++ ns := by
  intro ns
  induction ns with
  | nil => intro acc _ _; simp
  | cons n ns ih =>
    intro acc hnd hdisj
    have hn : n ∉ acc := hdisj n (List.mem_cons_self n ns)
    have hp : putFile acc n = acc ++ [n] := by
      unfold putFile
      rw [if_neg hn]
    have hrest : ∀ x ∈ ns, x ∉ acc ++ [n] := by
      intro x hx
      simp only [List.mem_append, List.mem_singleton]
      rintro (hxa | rfl)
      · exact hdisj x (List.mem_cons_of_mem n hx) hxa
      · exact (List.nodup_cons.mp hnd).1 hx
    rw [List.foldl_cons, hp, ih (acc ++ [n]) (List.nodup_cons.mp hnd).2 hrest]
    simp

theorem nodup_foldl_putFile :
    ∀ (ns acc : List String), acc.Nodup → (List.foldl putFile acc ns).Nodup := by
  intro ns
  induction ns with
  | nil => intro acc h; simpa
  | cons n ns ih =>
    intro acc h
    rw [List.foldl_cons]
    apply ih
    unfold putFile
    by_cases hn : n ∈ acc
    · rwa [if_pos hn]
    · rw [if_neg hn]
      rw [List.nodup_append]
      refine ⟨h, List.nodup_singleton n, ?_⟩
      intro a ha hc
      rw [List.mem_singleton] at hc
      subst hc
      exact hn ha

/-! ## Claim C8 -/

/-- C8: materializing first resets the four destination leaf folders, so the
result is independent of the prior destination state and re-materializing the
same manifest is idempotent; afterwards the image folders hold exactly the
manifest's files, and the label folders hold exactly the labels derived from
the manifest, with no duplicates and no leftovers. -/
theorem materialize_exactly (labelOf : String → Option String) (train val : List String)
    (p p' : SplitDirs) (ht : train.Nodup) (hv : val.Nodup) :
    materialize labelOf train val p = materialize labelOf train val p'
    ∧ materialize labelOf train val (materialize labelOf train val p)
        = materialize labelOf train val p
    ∧ (materialize labelOf train val p).trainImages = train
    ∧ (materialize labelOf train val p).valImages = val
    ∧ (∀ x, x ∈ (materialize labelOf train val p).trainLabels
        ↔ x ∈ labelTargets labelOf train)
    ∧ (∀ x, x ∈ (materialize labelOf train val p).valLabels
        ↔ x ∈ labelTargets labelOf val)
    ∧ (materialize labelOf train val p).trainLabels.Nodup
    ∧ (materialize labelOf train val p).valLabels.Nodup := by
  have hm : ∀ q : SplitDirs, materialize labelOf train val q
      = ⟨List.foldl putFile [] train, List.foldl putFile [] (labelTargets labelOf train),
         List.foldl putFile [] val, List.foldl putFile [] (labelTargets labelOf val)⟩ := by
    intro q
    simp [materialize, clearSplitFolders, copyFiles_eq]
  refine ⟨by rw [hm, hm], by rw [hm, hm], ?_, ?_, ?_, ?_, ?_, ?_⟩
  · rw [hm]
    exact foldl_putFile_of_disjoint train [] ht (by simp)
  · rw [hm]
    exact foldl_putFile_of_disjoint val [] hv (by simp)
  · intro x
    rw [hm]
    simp [mem_foldl_putFile]
  · intro x
    rw [hm]
    simp [mem_foldl_putFile]
  · rw [hm]
    exact nodup_foldl_putFile _ [] List.nodup_nil
  · rw [hm]
    exact nodup_foldl_putFile _ [] List.nodup_nil

theorem materialize_exactly_witness :
    (["alpha.jpg", "charlie.jpeg"] : List String).Nodup
    ∧ (["foxtrot.jpg"] : List String).Nodup
    ∧ (materialize wLabelOf ["alpha.jpg", "charlie.jpeg"] ["foxtrot.jpg"]
        ⟨["old.jpg"], ["old.txt"], ["x.png"], []⟩).trainImages
      = ["alpha.jpg", "charlie.jpeg"] :=
  ⟨by decide, by decide,
   (materialize_exactly wLabelOf ["alpha.jpg", "charlie.jpeg"] ["foxtrot.jpg"]
      ⟨["old.jpg"], ["old.txt"], ["x.png"], []⟩ ⟨[], [], [], []⟩
      (by decide) (by decide)).2.2.1⟩

/-! ## Filesystem frame lemmas -/

theorem append_single_prefix_ne {root : FPath} {a b : String} {q : FPath}
    (hab : a ≠ b) (ha : root ++ [a] <+: q) (hb : root ++ [b] <+: q) : False := by
  have hor := List.prefix_or_prefix_of_prefix ha hb
  have heq : root ++ [a] = root ++ [b] := by
    rcases hor with h | h
    · exact List.IsPrefix.eq_of_length h (by simp)
    · exact (List.IsPrefix.eq_of_length h (by simp)).symm
  have hsame : a = b := by
    have := List.append_cancel_left heq
    simpa using this
  exact hab hsame

theorem writeFile_frame (p : FPath) (c : String) (fs : FS) (q : FPath) (h : q ≠ p) :
    writeFile p c fs q = fs q := by
  unfold writeFile
  rw [if_neg h]

theorem copyFile_frame (src dst : FPath) (fs : FS) (q : FPath) (h : q ≠ dst) :
    copyFile src dst fs q = fs q := by
  rcases hsrc : fs src with _ | c
  · simp [copyFile, hsrc]
  · simp [copyFile, hsrc, writeFile_frame dst c fs q h]

theorem rmtree_frame (root : FPath) (fs : FS) (q : FPath) (h : ¬ root <+: q) :
    rmtree root fs q = fs q := by
  unfold rmtree
  rw [if_neg ?hc]
  case hc =>
    rw [List.isPrefixOf_iff_prefix]
    exact h

theorem copyFilesFS_frame (root dI dL : FPath) (q : FPath)
    (hI : ¬ dI <+: q) (hL : ¬ dL <+: q) :
    ∀ (ns : List String) (fs : FS), copyFilesFS root dI dL ns fs q = fs q := by
  intro ns
  induction ns with
  | nil => intro fs; rfl
  | cons n ns ih =>
    intro fs
    have h1 : q ≠ dI ++ [n] := by
      intro hq
      apply hI
      rw [hq]
      exact List.prefix_append dI [n]
    have h2 : q ≠ dL ++ [stemOf n ++ ".txt"] := by
      intro hq
      apply hL
      rw [hq]
      exact List.prefix_append dL [stemOf n ++ ".txt"]
    simp only [copyFilesFS]
    rw [ih]
    by_cases hs : ((copyFile (imagesDir root ++ [n]) (dI ++ [n]) fs)
        (labelsDir root ++ [stemOf n ++ ".txt"])).isSome
    · rw [if_pos hs, copyFile_frame _ _ _ q h2, copyFile_frame _ _ _ q h1]
    · rw [if_neg hs, copyFile_frame _ _ _ q h1]

theorem clearSplitFoldersFS_frame (root : FPath) (fs : FS) (q : FPath)
    (h1 : ¬ trainImagesDir root <+: q) (h2 : ¬ trainLabelsDir root <+: q)
    (h3 : ¬ valImagesDir root <+: q) (h4 : ¬ valLabelsDir root <+: q) :
    clearSplitFoldersFS root fs q = fs q := by
  unfold clearSplitFoldersFS
  rw [rmtree_frame _ _ _ h4, rmtree_frame _ _ _ h3,
      rmtree_frame _ _ _ h2, rmtree_frame _ _ _ h1]

theorem stepSplitFS_frame (root : FPath) (tn vn : List String) (yaml : String)
    (fs : FS) (q : FPath)
    (h1 : ¬ trainImagesDir root <+: q) (h2 : ¬ trainLabelsDir root <+: q)
    (h3 : ¬ valImagesDir root <+: q) (h4 : ¬ valLabelsDir root <+: q)
    (h5 : q ≠ datasetYamlPath root) :
    stepSplitFS root tn vn yaml fs q = fs q := by
  unfold stepSplitFS
  rw [writeFile_frame _ _ _ _ h5,
      copyFilesFS_frame root _ _ q h3 h4 vn,
      copyFilesFS_frame root _ _ q h1 h2 tn,
      clearSplitFoldersFS_frame root fs q h1 h2 h3 h4]

theorem stepCleanFS_frame (doClean : Bool) (root : FPath) (fs : FS) (q : FPath)
    (h1 : ¬ trainDir root <+: q) (h2 : ¬ valDir root <+: q) :
    stepCleanFS doClean root fs q = fs q := by
  cases doClean
  · simp [stepCleanFS]
  · simp only [stepCleanFS, if_true]
    rw [rmtree_frame _ _ _ h2, rmtree_frame _ _ _ h1]

theorem under_sources_not_targets (root : FPath) (q : FPath)
    (h : imagesDir root <+: q ∨ labelsDir root <+: q) :
    ¬ trainDir root <+: q ∧ ¬ valDir root <+: q
    ∧ ¬ trainImagesDir root <+: q ∧ ¬ trainLabelsDir root <+: q
    ∧ ¬ valImagesDir root <+: q ∧ ¬ valLabelsDir root <+: q
    ∧ q ≠ datasetYamlPath root := by
  have hni : ∀ a : String, a ≠ "images" → a ≠ "labels" → ¬ (root ++ [a]) <+: q := by
    intro a ha1 ha2 hpre
    rcases h with h | h
    · exact append_single_prefix_ne ha1 hpre h
    · exact append_single_prefix_ne ha2 hpre h
  have htrain : ¬ trainDir root <+: q := hni "train" (by decide) (by decide)
  have hval : ¬ valDir root <+: q := hni "val" (by decide) (by decide)
  have htp : trainDir root <+: trainImagesDir root := List.prefix_append _ _
  have htl : trainDir root <+: trainLabelsDir root := List.prefix_append _ _
  have hvp : valDir root <+: valImagesDir root := List.prefix_append _ _
  have hvl : valDir root <+: valLabelsDir root := List.prefix_append _ _
  refine ⟨htrain, hval,
    fun hp => htrain (htp.trans hp), fun hp => htrain (htl.trans hp),
    fun hp => hval (hvp.trans hp), fun hp => hval (hvl.trans hp), ?_⟩
  intro he
  refine hni "dataset.yaml" (by decide) (by decide) ?_
  rw [he]
  exact List.prefix_refl _

/-! ## Claim C10 -/

/-- C10 counterexample: the Split step also writes the dataset description
document `dataset.yaml` at the split root — a path under none of the four
destination leaf folders (and not under the source folders either) changes —
so "Split writes exclusively into the four destination leaf folders" is false
as stated. -/
theorem split_writes_outside_leaves_counterexample :
    stepSplitFS ["td"] [] [] "yaml-content" cexFS ["td", "dataset.yaml"]
      ≠ cexFS ["td", "dataset.yaml"]
    ∧ ¬ trainImagesDir ["td"] <+: ["td", "dataset.yaml"]
    ∧ ¬ trainLabelsDir ["td"] <+: ["td", "dataset.yaml"]
    ∧ ¬ valImagesDir ["td"] <+: ["td", "dataset.yaml"]
    ∧ ¬ valLabelsDir ["td"] <+: ["td", "dataset.yaml"]
    ∧ ¬ imagesDir ["td"] <+: ["td", "dataset.yaml"]
    ∧ ¬ labelsDir ["td"] <+: ["td", "dataset.yaml"] := by
  refine ⟨?_, by decide, by decide, by decide, by decide, by decide, by decide⟩
  intro h
  have hW : stepSplitFS ["td"] [] [] "yaml-content" cexFS ["td", "dataset.yaml"]
      = some "yaml-content" := by decide
  rw [hW] at h
  exact Option.noConfusion h

/-- C10 (amended): the Clean and Split steps never modify or delete any file
under the source images or labels folders — Clean changes files only under the
train and val subtrees, and Split changes files only under the four
destination leaf folders and at the dataset description document at the split
root. -/
theorem clean_split_frame (root : FPath) (doClean : Bool) (fs : FS)
    (tn vn : List String) (yaml : String) (q : FPath)
    (hq : imagesDir root <+: q ∨ labelsDir root <+: q) :
    stepCleanFS doClean root fs q = fs q
    ∧ stepSplitFS root tn vn yaml fs q = fs q
    ∧ (∀ (q' : FPath) (fs' : FS), ¬ trainDir root <+: q' → ¬ valDir root <+: q' →
        stepCleanFS doClean root fs' q' = fs' q')
    ∧ (∀ (q' : FPath) (fs' : FS),
        ¬ trainImagesDir root <+: q' → ¬ trainLabelsDir root <+: q' →
        ¬ valImagesDir root <+: q' → ¬ valLabelsDir root <+: q' →
        q' ≠ datasetYamlPath root →
        stepSplitFS root tn vn yaml fs' q' = fs' q') := by
  obtain ⟨h1, h2, h3, h4, h5, h6, h7⟩ := under_sources_not_targets root q hq
  exact ⟨stepCleanFS_frame doClean root fs q h1 h2,
    stepSplitFS_frame root tn vn yaml fs q h3 h4 h5 h6 h7,
    fun q' fs' a b => stepCleanFS_frame doClean root fs' q' a b,
    fun q' fs' a b c d e => stepSplitFS_frame root tn vn yaml fs' q' a b c d e⟩

theorem clean_split_frame_witness :
    (imagesDir ["td"] <+: ["td", "images", "shot.jpg"]
      ∨ labelsDir ["td"] <+: ["td", "images", "shot.jpg"])
    ∧ stepSplitFS ["td"] ["shot.jpg"] [] "yaml-content" cexFS ["td", "images", "shot.jpg"]
        = cexFS ["td", "images", "shot.jpg"] :=
  ⟨Or.inl ⟨["shot.jpg"], rfl⟩,
   (clean_split_frame ["td"] true cexFS ["shot.jpg"] [] "yaml-content"
      ["td", "images", "shot.jpg"] (Or.inl ⟨["shot.jpg"], rfl⟩)).2.1⟩

end GamingVision
